import Mathlib

/-!
Verification of the Heikin Ashi screener (src/app.py).

The program converts raw daily OHLC bars into Heikin Ashi (smoothed) bars
(`heikin_ashi`, app.py lines 50-69), then per symbol (`analyze_stock`,
lines 74-134) gates on data availability, drops rows whose smoothed values
are NaN, and matches a two-bar reversal pattern; the main loop
(lines 169-176) iterates the symbol list and appends matches.

Two models of the transform are given:
* an exact model over `ℚ` (`heikin_ashi`) for series whose bars all carry
  finite values — the float formulas of the source transcribed over exact
  rationals;
* a NaN-aware model (`heikin_ashiNA`) over `Option ℚ`, where `none` plays
  the role of pandas NaN (missing values propagate through `+` and `/`,
  while row-wise `max`/`min` skip missing entries, as pandas does with
  skipna=True). `analyze_stock` is modelled on top of this one, since its
  dropna step (line 101) is about NaN rows.
A lift lemma connects the two on all-finite input.

DataFrames are modelled as lists in date order (index 0 oldest); the date
index of the source frames is strictly increasing, so `sort_index` on
line 110 is the identity and is not modelled separately.
-/

set_option linter.unusedVariables false

namespace HAScreener

/-- One raw OHLC bar with finite values: the columns Open, High, Low, Close
of one row of the source DataFrame (fields `o`, `h`, `l`, `c`). -/
structure Bar where
  o : ℚ
  h : ℚ
  l : ℚ
  c : ℚ

/-- One smoothed bar: the columns HA_Open, HA_High, HA_Low, HA_Close
computed by `heikin_ashi` (app.py lines 55-64). -/
structure HABar where
  haOpen : ℚ
  haHigh : ℚ
  haLow : ℚ
  haClose : ℚ

/-- Build the smoothed bar for one raw bar given its HA_Open value `ho`:
HA_Close = (Open+High+Low+Close)/4 (line 55), HA_High = row max of
High, HA_Open, HA_Close (line 63), HA_Low = row min (line 64). -/
def mkHABar (ho : ℚ) (b : Bar) : HABar :=
  let hc := (b.o + b.h + b.l + b.c) / 4
  { haOpen := ho
    haHigh := max b.h (max ho hc)
    haLow := min b.l (min ho hc)
    haClose := hc }

/-- The left-to-right sweep of lines 58-60: `ho` is the HA_Open value of the
next bar; the following seed is (HA_Open + HA_Close)/2 of the bar just
built (line 60). -/
def haGo (ho : ℚ) : List Bar → List HABar
  | [] => []
  | b :: rest =>
    let bar := mkHABar ho b
    bar :: haGo ((bar.haOpen + bar.haClose) / 2) rest

/-- Exact model of `heikin_ashi` (app.py lines 50-69): the seed HA_Open of
the first bar is (Open[0]+Close[0])/2 (line 58). -/
def heikin_ashi : List Bar → List HABar
  | [] => []
  | b :: rest => haGo ((b.o + b.c) / 2) (b :: rest)

/-- Column Is_Green (line 67): HA_Close > HA_Open. -/
def HABar.isGreen (b : HABar) : Bool := decide (b.haOpen < b.haClose)

end HAScreener

namespace HAScreener

/-! ### NaN-aware model

`Option ℚ` stands for a float that may be NaN/missing; `none` is NaN.
Addition and division propagate `none` (as IEEE NaN propagates through
arithmetic); the row-wise max/min of pandas skip NaN entries. -/

/-- NaN-propagating addition. -/
def oadd : Option ℚ → Option ℚ → Option ℚ
  | some a, some b => some (a + b)
  | _, _ => none

/-- NaN-propagating division by a constant. -/
def odiv (a : Option ℚ) (k : ℚ) : Option ℚ := a.map (fun x => x / k)

/-- Row-wise max with skipna semantics (pandas `max(axis=1)`). -/
def omax2 : Option ℚ → Option ℚ → Option ℚ
  | some a, some b => some (max a b)
  | some a, none => some a
  | none, x => x

/-- Row-wise min with skipna semantics (pandas `min(axis=1)`). -/
def omin2 : Option ℚ → Option ℚ → Option ℚ
  | some a, some b => some (min a b)
  | some a, none => some a
  | none, x => x

/-- One raw row as fetched: any of Open, High, Low, Close may be NaN. -/
structure VBar where
  o : Option ℚ
  h : Option ℚ
  l : Option ℚ
  c : Option ℚ

/-- One smoothed row whose values may be NaN. -/
structure VHABar where
  haOpen : Option ℚ
  haHigh : Option ℚ
  haLow : Option ℚ
  haClose : Option ℚ

instance : Inhabited VHABar := ⟨⟨none, none, none, none⟩⟩

/-- HA_Close of one row (line 55); NaN whenever some input field is NaN. -/
def haCloseNA (b : VBar) : Option ℚ :=
  odiv (oadd (oadd (oadd b.o b.h) b.l) b.c) 4

/-- NaN-aware analogue of `mkHABar`. -/
def mkVHABar (ho : Option ℚ) (b : VBar) : VHABar :=
  let hc := haCloseNA b
  { haOpen := ho
    haHigh := omax2 b.h (omax2 ho hc)
    haLow := omin2 b.l (omin2 ho hc)
    haClose := hc }

/-- NaN-aware analogue of `haGo` (lines 58-60). -/
def vGo (ho : Option ℚ) : List VBar → List VHABar
  | [] => []
  | b :: rest =>
    let bar := mkVHABar ho b
    bar :: vGo (odiv (oadd bar.haOpen bar.haClose) 2) rest

/-- NaN-aware model of `heikin_ashi` (app.py lines 50-69). -/
def heikin_ashiNA : List VBar → List VHABar
  | [] => []
  | b :: rest => vGo (odiv (oadd b.o b.c) 2) (b :: rest)

/-- Is_Green (line 67) on possibly-NaN values: a float comparison with NaN
is False, so a NaN row is not green. -/
def isGreenNA (b : VHABar) : Bool :=
  match b.haClose, b.haOpen with
  | some hc, some ho => decide (ho < hc)
  | _, _ => false

/-- `ha.dropna(subset=['HA_Close', 'HA_Open'])` (line 101): keep the rows
whose HA_Close and HA_Open are both present. -/
def usable (l : List VHABar) : List VHABar :=
  l.filter (fun b => b.haClose.isSome && b.haOpen.isSome)

/-- Embedding of a finite bar into the NaN-aware model. -/
def liftBar (b : Bar) : VBar := ⟨some b.o, some b.h, some b.l, some b.c⟩

/-- Embedding of a finite smoothed bar. -/
def liftHA (b : HABar) : VHABar :=
  ⟨some b.haOpen, some b.haHigh, some b.haLow, some b.haClose⟩

end HAScreener

namespace HAScreener

/-! ### The screener -/

/-- What a match carries back to the main loop (app.py lines 129-133): the
symbol and the dropna'd smoothed frame `ha` (the debug dictionary of
line 117 is derived from the same frame and carries no further data). -/
structure ScreenRow where
  symbol : String
  ha : List VHABar

instance : Inhabited ScreenRow := ⟨⟨"", []⟩⟩

/-- The row `analyze_stock` binds to `yesterday` (app.py line 113): the last
row of `recent = ha.tail(3)` (line 107), i.e. `recent.iloc[-1]`
(`sort_index` on line 110 is the identity on the date-sorted frame). -/
def yRowOf (ha : List VHABar) : VHABar :=
  (ha.drop (ha.length - 3)).getD 2 default

/-- The row `analyze_stock` binds to `day_before` (app.py line 114):
`recent.iloc[-2]` of `recent = ha.tail(3)`. -/
def dRowOf (ha : List VHABar) : VHABar :=
  (ha.drop (ha.length - 3)).getD 1 default

/-- `analyze_stock` (app.py lines 74-134) after the per-symbol data frame
has been extracted: skip when the frame is empty or shorter than 4 rows
(line 87; empty is subsumed by length < 4); transform (line 98); drop NaN
rows (line 101); skip when fewer than 3 rows remain (line 103); match when
the `yesterday` row is green and the `day_before` row is not (line 126),
returning the symbol and the dropna'd frame (lines 129-133). -/
def analyze_stock (symbol : String) (df : List VBar) : Option ScreenRow :=
  if df.length < 4 then none
  else if (usable (heikin_ashiNA df)).length < 3 then none
  else if isGreenNA (yRowOf (usable (heikin_ashiNA df))) &&
      !(isGreenNA (dRowOf (usable (heikin_ashiNA df)))) then
    some { symbol := symbol, ha := usable (heikin_ashiNA df) }
  else none

/-- One symbol's fetch-and-analyze step: extraction of the symbol's frame
from the bulk download may fail (lines 75-85); the exception is caught,
a warning is shown, and the symbol yields no result. -/
def analyzeSym (p : String × Except String (List VBar)) : Option ScreenRow :=
  match p.2 with
  | Except.error _ => none
  | Except.ok df => analyze_stock p.1 df

/-- The result accumulation of the main loop (lines 169-176): `acc` is the
`results` list, matches are appended in iteration order. -/
def screenAux (acc : List ScreenRow) :
    List (String × Except String (List VBar)) → List ScreenRow
  | [] => acc
  | p :: rest =>
    match analyzeSym p with
    | some r => screenAux (acc ++ [r]) rest
    | none => screenAux acc rest

/-- The main loop over the symbol list (app.py lines 169-176). -/
def screen (inputs : List (String × Except String (List VBar))) :
    List ScreenRow :=
  screenAux [] inputs

/-! ### Spec-side definitions, for comparison with the code

These two follow the words of the spec (§4.2 steps 3-4), not the source,
and exist only to be compared with the behaviour of `analyze_stock`. -/

/-- Spec-side (§4.2 step 3): with n the length of the smoothed series, the
spec's `yesterday` is the bar at position n-2 and its `dayBeforeYesterday`
the bar at position n-3 (position n-1 excluded); the predicate is
dayBeforeYesterday not bullish and yesterday bullish. -/
def specReversalDecision (ha : List VHABar) : Bool :=
  isGreenNA (ha.getD (ha.length - 2) default) &&
    !(isGreenNA (ha.getD (ha.length - 3) default))

/-- Spec-side (§4.2 step 4): percentage change
(yesterday.haClose - dayBeforeYesterday.haClose) / dayBeforeYesterday.haClose * 100
with the spec's positions n-2 and n-3. -/
def specPctChange (ha : List VHABar) : ℚ :=
  match (ha.getD (ha.length - 2) default).haClose,
        (ha.getD (ha.length - 3) default).haClose with
  | some y, some d => (y - d) / d * 100
  | _, _ => 0

end HAScreener

namespace HAScreener

/-! ### Concrete series used to instantiate and to refute claims

Smoothed values, for reference (haOpen, haClose per bar, green means
haOpen < haClose):
* `dfA`: (10,10) (10,8) (9,11) (10,11) — green pattern F F T T.
* `dfP`: (10,10) (10,8) (9,8) (17/2,19/2) — green pattern F F F T.
* `dfQ`: same first three bars as `dfP`, last bar red — F F F F.
* `df3`: the first three bars of `dfA` — F F T.
* `dfB6`: (10,10) (10,6) (8,7) (15/2,17/2) — green pattern F F F T.
-/

instance : Inhabited Bar := ⟨⟨0, 0, 0, 0⟩⟩

instance : Inhabited HABar := ⟨⟨0, 0, 0, 0⟩⟩

instance : Inhabited VBar := ⟨⟨none, none, none, none⟩⟩

/-- Four valid bars whose smoothed series is red, red, green, green. -/
def dfA : List VBar :=
  [liftBar ⟨10, 10, 10, 10⟩, liftBar ⟨10, 10, 6, 6⟩,
   liftBar ⟨10, 12, 10, 12⟩, liftBar ⟨11, 11, 11, 11⟩]

/-- Four valid bars whose smoothed series is red, red, red, green. -/
def dfP : List VBar :=
  [liftBar ⟨10, 10, 10, 10⟩, liftBar ⟨10, 10, 6, 6⟩,
   liftBar ⟨8, 9, 7, 8⟩, liftBar ⟨9, 10, 9, 10⟩]

/-- The first three bars of `dfP` followed by a red bar: red, red, red, red. -/
def dfQ : List VBar :=
  [liftBar ⟨10, 10, 10, 10⟩, liftBar ⟨10, 10, 6, 6⟩,
   liftBar ⟨8, 9, 7, 8⟩, liftBar ⟨8, 8, 8, 8⟩]

/-- Exactly three valid bars, smoothed red, red, green. -/
def df3 : List VBar :=
  [liftBar ⟨10, 10, 10, 10⟩, liftBar ⟨10, 10, 6, 6⟩,
   liftBar ⟨10, 12, 10, 12⟩]

/-- Four valid bars, smoothed red, red, red, green, with a positive
percentage change between smoothed closes at positions 1 and 2. -/
def dfB6 : List VBar :=
  [liftBar ⟨10, 10, 10, 10⟩, liftBar ⟨10, 10, 2, 2⟩,
   liftBar ⟨7, 8, 6, 7⟩, liftBar ⟨8, 9, 8, 9⟩]

/-- Four finite bars whose second bar violates the OHLC ordering invariant:
its High (5) is below its Low (12). -/
def dfInv : List VBar :=
  [liftBar ⟨10, 12, 9, 11⟩, liftBar ⟨10, 5, 12, 10⟩,
   liftBar ⟨10, 12, 9, 11⟩, liftBar ⟨10, 12, 9, 11⟩]

/-- Six bars, all valid except bar 2 whose Close is missing (NaN). -/
def dfNaN : List VBar :=
  [liftBar ⟨10, 12, 9, 11⟩, liftBar ⟨11, 13, 10, 12⟩,
   ⟨some 12, some 14, some 11, none⟩, liftBar ⟨12, 14, 11, 13⟩,
   liftBar ⟨13, 15, 12, 14⟩, liftBar ⟨14, 16, 13, 15⟩]

/-- Three valid finite bars (exact model), used to instantiate theorems. -/
def dfW : List Bar :=
  [⟨10, 12, 9, 11⟩, ⟨11, 13, 10, 12⟩, ⟨12, 14, 11, 13⟩]

/-- One more valid finite bar, appended to `dfW` in instantiations. -/
def bW : Bar := ⟨13, 15, 12, 14⟩

end HAScreener

namespace HAScreener

/-! ## Helper lemmas: the exact transform -/

lemma haGo_length (s : ℚ) (df : List Bar) : (haGo s df).length = df.length := by
  induction df generalizing s with
  | nil => rfl
  | cons b rest ih => simp [haGo, ih]

lemma heikin_ashi_length (df : List Bar) :
    (heikin_ashi df).length = df.length := by
  cases df with
  | nil => rfl
  | cons b rest => exact haGo_length _ _

lemma haGo_getD_haClose (df : List Bar) (s : ℚ) (i : ℕ) (h : i < df.length) :
    ((haGo s df).getD i default).haClose =
      ((df.getD i default).o + (df.getD i default).h +
        (df.getD i default).l + (df.getD i default).c) / 4 := by
  induction df generalizing s i with
  | nil => simp at h
  | cons b rest ih =>
    cases i with
    | zero => simp [haGo, mkHABar]
    | succ j =>
      simp only [haGo, List.getD_cons_succ]
      exact ih _ _ (by simpa using h)

lemma haGo_getD_haHigh (df : List Bar) (s : ℚ) (i : ℕ) (h : i < df.length) :
    ((haGo s df).getD i default).haHigh =
      max (df.getD i default).h
        (max ((haGo s df).getD i default).haOpen
          ((haGo s df).getD i default).haClose) := by
  induction df generalizing s i with
  | nil => simp at h
  | cons b rest ih =>
    cases i with
    | zero => simp [haGo, mkHABar]
    | succ j =>
      simp only [haGo, List.getD_cons_succ]
      exact ih _ _ (by simpa using h)

lemma haGo_getD_haLow (df : List Bar) (s : ℚ) (i : ℕ) (h : i < df.length) :
    ((haGo s df).getD i default).haLow =
      min (df.getD i default).l
        (min ((haGo s df).getD i default).haOpen
          ((haGo s df).getD i default).haClose) := by
  induction df generalizing s i with
  | nil => simp at h
  | cons b rest ih =>
    cases i with
    | zero => simp [haGo, mkHABar]
    | succ j =>
      simp only [haGo, List.getD_cons_succ]
      exact ih _ _ (by simpa using h)

lemma haGo_getD_haOpen_zero (df : List Bar) (s : ℚ) (h : 0 < df.length) :
    ((haGo s df).getD 0 default).haOpen = s := by
  cases df with
  | nil => simp at h
  | cons b rest => simp [haGo, mkHABar]

lemma haGo_getD_haOpen_succ (df : List Bar) (s : ℚ) (j : ℕ)
    (h : j + 1 < df.length) :
    ((haGo s df).getD (j + 1) default).haOpen =
      (((haGo s df).getD j default).haOpen +
        ((haGo s df).getD j default).haClose) / 2 := by
  induction df generalizing s j with
  | nil => simp at h
  | cons b rest ih =>
    cases j with
    | zero =>
      have hr : 0 < rest.length := by simpa using h
      simp only [haGo, List.getD_cons_succ, List.getD_cons_zero]
      rw [haGo_getD_haOpen_zero rest _ hr]
    | succ k =>
      simp only [haGo, List.getD_cons_succ]
      exact ih _ _ (by simpa using h)

lemma mem_haGo_inv (s : ℚ) (df : List Bar) :
    ∀ hb ∈ haGo s df,
      hb.haLow ≤ min hb.haOpen hb.haClose ∧
      max hb.haOpen hb.haClose ≤ hb.haHigh := by
  induction df generalizing s with
  | nil => simp [haGo]
  | cons b rest ih =>
    intro hb hmem
    simp only [haGo, List.mem_cons] at hmem
    rcases hmem with rfl | hmem
    · refine ⟨?_, ?_⟩
      · simp only [mkHABar]
        exact min_le_right _ _
      · simp only [mkHABar]
        exact le_max_right b.h _
    · exact ih _ hb hmem

lemma haGo_append_take (xs ys : List Bar) (s : ℚ) :
    (haGo s (xs ++ ys)).take xs.length = haGo s xs := by
  induction xs generalizing s with
  | nil => simp [haGo]
  | cons x xs ih =>
    simp only [List.cons_append, haGo, List.length_cons, List.take_succ_cons,
      List.append_eq]
    rw [ih]

end HAScreener

namespace HAScreener

/-! ## Claims about the exact transform -/

/-- C2: for every non-empty raw series and every index i, the transform
satisfies haClose[i] = (open[i]+high[i]+low[i]+close[i])/4,
haOpen[0] = (open[0]+close[0])/2,
haOpen[i+1] = (haOpen[i]+haClose[i])/2,
haHigh[i] = max(high[i], haOpen[i], haClose[i]) and
haLow[i] = min(low[i], haOpen[i], haClose[i]), with output and input of
equal length. -/
theorem heikin_ashi_recurrence (df : List Bar) (i : ℕ) (h : i < df.length) :
    (heikin_ashi df).length = df.length ∧
    ((heikin_ashi df).getD i default).haClose =
      ((df.getD i default).o + (df.getD i default).h +
        (df.getD i default).l + (df.getD i default).c) / 4 ∧
    ((heikin_ashi df).getD 0 default).haOpen =
      ((df.getD 0 default).o + (df.getD 0 default).c) / 2 ∧
    (i + 1 < df.length →
      ((heikin_ashi df).getD (i + 1) default).haOpen =
        (((heikin_ashi df).getD i default).haOpen +
          ((heikin_ashi df).getD i default).haClose) / 2) ∧
    ((heikin_ashi df).getD i default).haHigh =
      max (df.getD i default).h
        (max ((heikin_ashi df).getD i default).haOpen
          ((heikin_ashi df).getD i default).haClose) ∧
    ((heikin_ashi df).getD i default).haLow =
      min (df.getD i default).l
        (min ((heikin_ashi df).getD i default).haOpen
          ((heikin_ashi df).getD i default).haClose) := by
  cases df with
  | nil => simp at h
  | cons b rest =>
    refine ⟨heikin_ashi_length _, ?_, ?_, ?_, ?_, ?_⟩
    · exact haGo_getD_haClose (b :: rest) _ i h
    · have h0 : ((b :: rest).getD 0 default) = b := rfl
      rw [h0]
      exact haGo_getD_haOpen_zero (b :: rest) _ (by simp)
    · intro hsucc
      exact haGo_getD_haOpen_succ (b :: rest) _ i hsucc
    · exact haGo_getD_haHigh (b :: rest) _ i h
    · exact haGo_getD_haLow (b :: rest) _ i h

/-- C2 witness: the recurrence instantiated on the concrete three-bar
series `dfW` at index 1. -/
theorem heikin_ashi_recurrence_witness :
    (heikin_ashi dfW).length = dfW.length ∧
    ((heikin_ashi dfW).getD 1 default).haClose =
      ((dfW.getD 1 default).o + (dfW.getD 1 default).h +
        (dfW.getD 1 default).l + (dfW.getD 1 default).c) / 4 ∧
    ((heikin_ashi dfW).getD 0 default).haOpen =
      ((dfW.getD 0 default).o + (dfW.getD 0 default).c) / 2 ∧
    (1 + 1 < dfW.length →
      ((heikin_ashi dfW).getD (1 + 1) default).haOpen =
        (((heikin_ashi dfW).getD 1 default).haOpen +
          ((heikin_ashi dfW).getD 1 default).haClose) / 2) ∧
    ((heikin_ashi dfW).getD 1 default).haHigh =
      max (dfW.getD 1 default).h
        (max ((heikin_ashi dfW).getD 1 default).haOpen
          ((heikin_ashi dfW).getD 1 default).haClose) ∧
    ((heikin_ashi dfW).getD 1 default).haLow =
      min (dfW.getD 1 default).l
        (min ((heikin_ashi dfW).getD 1 default).haOpen
          ((heikin_ashi dfW).getD 1 default).haClose) :=
  heikin_ashi_recurrence dfW 1 (by decide)

/-- C4: when every input bar satisfies the OHLC ordering invariant, every
bar of the transform output satisfies
haLow ≤ min(haOpen, haClose) ≤ max(haOpen, haClose) ≤ haHigh. -/
theorem heikin_ashi_invariant (df : List Bar)
    (hv : ∀ b ∈ df, b.l ≤ min b.o b.c ∧ max b.o b.c ≤ b.h)
    (i : ℕ) (hi : i < df.length) :
    ((heikin_ashi df).getD i default).haLow ≤
      min ((heikin_ashi df).getD i default).haOpen
        ((heikin_ashi df).getD i default).haClose ∧
    min ((heikin_ashi df).getD i default).haOpen
        ((heikin_ashi df).getD i default).haClose ≤
      max ((heikin_ashi df).getD i default).haOpen
        ((heikin_ashi df).getD i default).haClose ∧
    max ((heikin_ashi df).getD i default).haOpen
        ((heikin_ashi df).getD i default).haClose ≤
      ((heikin_ashi df).getD i default).haHigh := by
  have hlen : i < (heikin_ashi df).length := by rw [heikin_ashi_length]; exact hi
  have hmem : (heikin_ashi df).getD i default ∈ heikin_ashi df := by
    rw [List.getD_eq_getElem _ _ hlen]
    exact List.getElem_mem _
  have hinv : ((heikin_ashi df).getD i default).haLow ≤
      min ((heikin_ashi df).getD i default).haOpen
        ((heikin_ashi df).getD i default).haClose ∧
      max ((heikin_ashi df).getD i default).haOpen
        ((heikin_ashi df).getD i default).haClose ≤
      ((heikin_ashi df).getD i default).haHigh := by
    cases df with
    | nil => simp at hi
    | cons b rest => exact mem_haGo_inv _ _ _ hmem
  exact ⟨hinv.1, (min_le_left _ _).trans (le_max_left _ _), hinv.2⟩

/-- C4 witness: the invariant instantiated on the concrete valid series
`dfW` at index 1. -/
theorem heikin_ashi_invariant_witness :
    ((heikin_ashi dfW).getD 1 default).haLow ≤
      min ((heikin_ashi dfW).getD 1 default).haOpen
        ((heikin_ashi dfW).getD 1 default).haClose ∧
    min ((heikin_ashi dfW).getD 1 default).haOpen
        ((heikin_ashi dfW).getD 1 default).haClose ≤
      max ((heikin_ashi dfW).getD 1 default).haOpen
        ((heikin_ashi dfW).getD 1 default).haClose ∧
    max ((heikin_ashi dfW).getD 1 default).haOpen
        ((heikin_ashi dfW).getD 1 default).haClose ≤
      ((heikin_ashi dfW).getD 1 default).haHigh :=
  heikin_ashi_invariant dfW
    (by
      intro b hb
      simp only [dfW, List.mem_cons, List.not_mem_nil, or_false] at hb
      rcases hb with rfl | rfl | rfl <;> exact ⟨by norm_num, by norm_num⟩)
    1 (by decide)

/-- C9: appending a newer raw bar never changes the earlier smoothed bars:
the first s.length bars of the transform of s ++ [b] are the transform
of s. -/
theorem heikin_ashi_prefix_stable (s : List Bar) (b : Bar)
    (h : 0 < s.length) :
    (heikin_ashi (s ++ [b])).take s.length = heikin_ashi s := by
  cases s with
  | nil => simp at h
  | cons a t =>
    exact haGo_append_take (a :: t) [b] _

/-- C9 witness: prefix stability instantiated on the concrete series `dfW`
extended with the bar `bW`. -/
theorem heikin_ashi_prefix_stable_witness :
    (heikin_ashi (dfW ++ [bW])).take dfW.length = heikin_ashi dfW :=
  heikin_ashi_prefix_stable dfW bW (by decide)

end HAScreener

namespace HAScreener

/-! ## Helper lemmas: the NaN-aware transform -/

lemma vGo_length (s : Option ℚ) (df : List VBar) :
    (vGo s df).length = df.length := by
  induction df generalizing s with
  | nil => rfl
  | cons b rest ih => simp [vGo, ih]

lemma heikin_ashiNA_length (df : List VBar) :
    (heikin_ashiNA df).length = df.length := by
  cases df with
  | nil => rfl
  | cons b rest => exact vGo_length _ _

lemma vGo_getD_haClose (df : List VBar) (s : Option ℚ) (i : ℕ)
    (h : i < df.length) :
    ((vGo s df).getD i default).haClose = haCloseNA (df.getD i default) := by
  induction df generalizing s i with
  | nil => simp at h
  | cons b rest ih =>
    cases i with
    | zero => simp [vGo, mkVHABar]
    | succ j =>
      simp only [vGo, List.getD_cons_succ]
      exact ih _ _ (by simpa using h)

lemma vGo_none_haOpen (df : List VBar) (i : ℕ) (h : i < df.length) :
    ((vGo none df).getD i default).haOpen = none := by
  induction df generalizing i with
  | nil => simp at h
  | cons b rest ih =>
    cases i with
    | zero => simp [vGo, mkVHABar]
    | succ j =>
      simp only [vGo, List.getD_cons_succ]
      have hseed : odiv (oadd (mkVHABar (none : Option ℚ) b).haOpen
          (mkVHABar (none : Option ℚ) b).haClose) 2 = none := rfl
      rw [hseed]
      exact ih j (by simpa using h)

lemma vGo_poison (df : List VBar) (s : Option ℚ) (j : ℕ)
    (hj : j < df.length) (hnan : haCloseNA (df.getD j default) = none) :
    ∀ k, j < k → k < df.length → ((vGo s df).getD k default).haOpen = none := by
  induction df generalizing s j with
  | nil => simp at hj
  | cons b rest ih =>
    intro k hjk hk
    cases j with
    | zero =>
      cases k with
      | zero => omega
      | succ n =>
        simp only [vGo, List.getD_cons_succ]
        have hb : (mkVHABar s b).haClose = none := by
          simpa [mkVHABar] using (by simpa using hnan : haCloseNA b = none)
        have hseed : odiv (oadd (mkVHABar s b).haOpen
            (mkVHABar s b).haClose) 2 = none := by
          rw [hb]; cases (mkVHABar s b).haOpen <;> rfl
        rw [hseed]
        exact vGo_none_haOpen rest n (by simpa using hk)
    | succ m =>
      cases k with
      | zero => omega
      | succ n =>
        simp only [vGo, List.getD_cons_succ]
        exact ih _ m (by simpa using hj) (by simpa using hnan) n
          (by omega) (by simpa using hk)

lemma length_filter_le_of_fails_from (p : VHABar → Bool) (l : List VHABar)
    (j : ℕ)
    (hfail : ∀ k, j ≤ k → (hk : k < l.length) → p (l.getD k default) = false) :
    (l.filter p).length ≤ j := by
  have hsplit : (l.filter p).length =
      ((l.take j).filter p).length + ((l.drop j).filter p).length := by
    rw [← List.length_append, ← List.filter_append, List.take_append_drop]
  have hnil : (l.drop j).filter p = [] := by
    rw [List.filter_eq_nil_iff]
    intro a ha
    rw [List.mem_iff_getElem] at ha
    obtain ⟨n, hn, rfl⟩ := ha
    rw [List.getElem_drop]
    have hlt : j + n < l.length := by
      rw [List.length_drop] at hn; omega
    have := hfail (j + n) (by omega) hlt
    rw [List.getD_eq_getElem _ _ hlt] at this
    simp [this]
  rw [hsplit, hnil]
  simp only [List.length_nil, Nat.add_zero]
  calc ((l.take j).filter p).length ≤ (l.take j).length :=
        List.length_filter_le _ _
    _ ≤ j := by rw [List.length_take]; omega

end HAScreener

namespace HAScreener

/-- C7 (amended): the transform validates nothing and never fails — its
output always has the length of its input — and when the raw bar at
position j has a missing component (its haClose is NaN), the recursion
makes haOpen NaN for every later position k, so the dropna filter removes
the offending bar together with every bar after it: at most j bars
survive. -/
theorem nan_truncates_series (df : List VBar) (j k : ℕ)
    (hj : j < df.length) (hjk : j < k) (hk : k < df.length)
    (hnan : haCloseNA (df.getD j default) = none) :
    (heikin_ashiNA df).length = df.length ∧
    ((heikin_ashiNA df).getD j default).haClose = none ∧
    ((heikin_ashiNA df).getD k default).haOpen = none ∧
    (usable (heikin_ashiNA df)).length ≤ j := by
  cases df with
  | nil => simp at hj
  | cons b rest =>
    refine ⟨heikin_ashiNA_length _, ?_, ?_, ?_⟩
    · rw [show heikin_ashiNA (b :: rest) =
        vGo (odiv (oadd b.o b.c) 2) (b :: rest) from rfl]
      rw [vGo_getD_haClose (b :: rest) _ j hj]
      exact hnan
    · exact vGo_poison (b :: rest) _ j hj hnan k hjk hk
    · apply length_filter_le_of_fails_from
      intro m hm hmlt
      rw [heikin_ashiNA_length] at hmlt
      rcases Nat.lt_or_ge j m with hlt | hge
      · have := vGo_poison (b :: rest) (odiv (oadd b.o b.c) 2) j hj hnan m hlt hmlt
        rw [show heikin_ashiNA (b :: rest) =
          vGo (odiv (oadd b.o b.c) 2) (b :: rest) from rfl]
        rw [this]
        simp
      · have hmj : m = j := by omega
        subst hmj
        rw [show heikin_ashiNA (b :: rest) =
          vGo (odiv (oadd b.o b.c) 2) (b :: rest) from rfl]
        rw [vGo_getD_haClose (b :: rest) _ m hmlt, hnan]
        simp

/-- C7 witness: in `dfNaN` only bar 2 has a missing value, yet bar 4's
haOpen is NaN and at most 2 bars survive the dropna filter. -/
theorem nan_truncates_series_witness :
    (heikin_ashiNA dfNaN).length = dfNaN.length ∧
    ((heikin_ashiNA dfNaN).getD 2 default).haClose = none ∧
    ((heikin_ashiNA dfNaN).getD 4 default).haOpen = none ∧
    (usable (heikin_ashiNA dfNaN)).length ≤ 2 :=
  nan_truncates_series dfNaN 2 4 (by decide) (by decide) (by decide) rfl

end HAScreener

namespace HAScreener

/-! ## Helper lemmas: the screener -/

lemma getElem_index_congr (l : List VHABar) (i j : ℕ) (hi : i < l.length)
    (hj : j < l.length) (hij : i = j) : l[i] = l[j] := by
  subst hij; rfl

lemma yRowOf_eq (ha : List VHABar) (h : 3 ≤ ha.length) :
    yRowOf ha = ha.getD (ha.length - 1) default := by
  unfold yRowOf
  have h1 : 2 < (ha.drop (ha.length - 3)).length := by
    rw [List.length_drop]; omega
  have h2 : ha.length - 1 < ha.length := by omega
  rw [List.getD_eq_getElem _ _ h1, List.getD_eq_getElem _ _ h2,
    List.getElem_drop]
  exact getElem_index_congr ha _ _ (by omega) h2 (by omega)

lemma dRowOf_eq (ha : List VHABar) (h : 3 ≤ ha.length) :
    dRowOf ha = ha.getD (ha.length - 2) default := by
  unfold dRowOf
  have h1 : 1 < (ha.drop (ha.length - 3)).length := by
    rw [List.length_drop]; omega
  have h2 : ha.length - 2 < ha.length := by omega
  rw [List.getD_eq_getElem _ _ h1, List.getD_eq_getElem _ _ h2,
    List.getElem_drop]
  exact getElem_index_congr ha _ _ (by omega) h2 (by omega)

lemma screenAux_eq (l : List (String × Except String (List VBar)))
    (acc : List ScreenRow) :
    screenAux acc l = acc ++ l.filterMap analyzeSym := by
  induction l generalizing acc with
  | nil => simp [screenAux]
  | cons p rest ih =>
    cases h : analyzeSym p with
    | none => simp only [screenAux, h, List.filterMap_cons]; rw [ih]
    | some r =>
      simp only [screenAux, h, List.filterMap_cons]
      rw [ih]
      simp

lemma screen_eq_filterMap (inputs : List (String × Except String (List VBar))) :
    screen inputs = inputs.filterMap analyzeSym := by
  unfold screen
  rw [screenAux_eq]
  simp

lemma analyzeSym_symbol (p : String × Except String (List VBar))
    (r : ScreenRow) (h : analyzeSym p = some r) : r.symbol = p.1 := by
  obtain ⟨s, d⟩ := p
  cases d with
  | error e => simp [analyzeSym] at h
  | ok df =>
    simp only [analyzeSym] at h
    unfold analyze_stock at h
    split at h
    · exact absurd h (by simp)
    · split at h
      · exact absurd h (by simp)
      · split at h
        · cases h.symm
          rfl
        · exact absurd h (by simp)

end HAScreener

namespace HAScreener

/-! ## Claims about the screener -/

/-- C1 (amended): under the two data gates, the reversal decision is
computed from the bars at positions n-1 (the row named `yesterday`) and
n-2 (the row named `day_before`) of the n usable smoothed bars; the
most recent bar is part of the decision, not excluded. -/
theorem analyze_uses_last_two_bars (sym : String) (df : List VBar)
    (h4 : 4 ≤ df.length)
    (h3 : 3 ≤ (usable (heikin_ashiNA df)).length) :
    yRowOf (usable (heikin_ashiNA df)) =
      (usable (heikin_ashiNA df)).getD
        ((usable (heikin_ashiNA df)).length - 1) default ∧
    dRowOf (usable (heikin_ashiNA df)) =
      (usable (heikin_ashiNA df)).getD
        ((usable (heikin_ashiNA df)).length - 2) default ∧
    (analyze_stock sym df).isSome =
      (isGreenNA ((usable (heikin_ashiNA df)).getD
          ((usable (heikin_ashiNA df)).length - 1) default) &&
        !(isGreenNA ((usable (heikin_ashiNA df)).getD
          ((usable (heikin_ashiNA df)).length - 2) default))) := by
  refine ⟨yRowOf_eq _ h3, dRowOf_eq _ h3, ?_⟩
  unfold analyze_stock
  rw [if_neg (by omega), if_neg (by omega), ← yRowOf_eq _ h3, ← dRowOf_eq _ h3]
  by_cases hcond : (isGreenNA (yRowOf (usable (heikin_ashiNA df))) &&
      !(isGreenNA (dRowOf (usable (heikin_ashiNA df))))) = true
  · rw [if_pos hcond]
    simp [hcond]
  · rw [if_neg hcond]
    simp only [Bool.not_eq_true] at hcond
    simp [hcond]

/-- C1 witness: the decision positions instantiated on the concrete
series `dfP`. -/
theorem analyze_uses_last_two_bars_witness :
    yRowOf (usable (heikin_ashiNA dfP)) =
      (usable (heikin_ashiNA dfP)).getD
        ((usable (heikin_ashiNA dfP)).length - 1) default ∧
    dRowOf (usable (heikin_ashiNA dfP)) =
      (usable (heikin_ashiNA dfP)).getD
        ((usable (heikin_ashiNA dfP)).length - 2) default ∧
    (analyze_stock "UCG.MI" dfP).isSome =
      (isGreenNA ((usable (heikin_ashiNA dfP)).getD
          ((usable (heikin_ashiNA dfP)).length - 1) default) &&
        !(isGreenNA ((usable (heikin_ashiNA dfP)).getD
          ((usable (heikin_ashiNA dfP)).length - 2) default))) :=
  analyze_uses_last_two_bars "UCG.MI" dfP (by decide) (by decide)

/-- C1 counterexample: on `dfA` the spec's decision (positions n-3 and
n-2, bar n-1 excluded) is a match, yet `analyze_stock` finds none; and
`dfP`, `dfQ` agree on every bar except the last one (position n-1), yet
`analyze_stock` matches `dfP` and not `dfQ`, so the last bar is not
excluded from the decision. -/
theorem spec_positions_refuted :
    specReversalDecision (usable (heikin_ashiNA dfA)) = true ∧
    analyze_stock "A2A.MI" dfA = none ∧
    dfP.take 3 = dfQ.take 3 ∧
    (analyze_stock "A2A.MI" dfP).isSome = true ∧
    analyze_stock "A2A.MI" dfQ = none := by
  refine ⟨?_, ?_, rfl, ?_, ?_⟩
  · norm_num [specReversalDecision, dfA, liftBar, usable, heikin_ashiNA, vGo,
      mkVHABar, haCloseNA, oadd, odiv, omax2, omin2, isGreenNA, List.filter,
      List.getD]
  · norm_num [analyze_stock, yRowOf, dRowOf, dfA, liftBar, usable,
      heikin_ashiNA, vGo, mkVHABar, haCloseNA, oadd, odiv, omax2, omin2,
      isGreenNA, List.filter, List.drop, List.getD]
  · norm_num [analyze_stock, yRowOf, dRowOf, dfP, liftBar, usable,
      heikin_ashiNA, vGo, mkVHABar, haCloseNA, oadd, odiv, omax2, omin2,
      isGreenNA, List.filter, List.drop, List.getD]
  · norm_num [analyze_stock, yRowOf, dRowOf, dfQ, liftBar, usable,
      heikin_ashiNA, vGo, mkVHABar, haCloseNA, oadd, odiv, omax2, omin2,
      isGreenNA, List.filter, List.drop, List.getD]

/-- C3: under the two data gates, a symbol is matched if and only if the
`day_before` decision row is not green and the `yesterday` decision row is
green; both-green, both-red and green-then-red pairs are never matched. -/
theorem reversal_predicate_iff (sym : String) (df : List VBar)
    (h4 : 4 ≤ df.length)
    (h3 : 3 ≤ (usable (heikin_ashiNA df)).length) :
    ((analyze_stock sym df).isSome = true ↔
      (isGreenNA (dRowOf (usable (heikin_ashiNA df))) = false ∧
       isGreenNA (yRowOf (usable (heikin_ashiNA df))) = true)) := by
  unfold analyze_stock
  rw [if_neg (by omega), if_neg (by omega)]
  by_cases hcond : (isGreenNA (yRowOf (usable (heikin_ashiNA df))) &&
      !(isGreenNA (dRowOf (usable (heikin_ashiNA df))))) = true
  · rw [if_pos hcond]
    rw [Bool.and_eq_true, Bool.not_eq_true'] at hcond
    simp [hcond.1, hcond.2]
  · rw [if_neg hcond]
    rw [Bool.and_eq_true, Bool.not_eq_true'] at hcond
    simp only [Option.isSome_none, Bool.false_eq_true, false_iff]
    intro hcontra
    exact hcond ⟨hcontra.2, hcontra.1⟩

/-- C3 witness: the predicate characterization instantiated on `dfP`. -/
theorem reversal_predicate_iff_witness :
    ((analyze_stock "UCG.MI" dfP).isSome = true ↔
      (isGreenNA (dRowOf (usable (heikin_ashiNA dfP))) = false ∧
       isGreenNA (yRowOf (usable (heikin_ashiNA dfP))) = true)) :=
  reversal_predicate_iff "UCG.MI" dfP (by decide) (by decide)

/-- C5 (amended): a symbol yields no result exactly when its raw frame has
fewer than 4 rows, or fewer than 3 rows survive the dropna filter, or the
two-bar reversal condition fails; in particular a raw frame of exactly 3
valid bars is skipped even though it has 3 usable bars. -/
theorem analyze_stock_skip_iff (sym : String) (df : List VBar) :
    analyze_stock sym df = none ↔
      (df.length < 4 ∨ (usable (heikin_ashiNA df)).length < 3 ∨
        ¬(isGreenNA (yRowOf (usable (heikin_ashiNA df))) = true ∧
          isGreenNA (dRowOf (usable (heikin_ashiNA df))) = false)) := by
  unfold analyze_stock
  split_ifs with h1 h2 h3
  · simp [h1]
  · simp [h1, h2]
  · rw [Bool.and_eq_true, Bool.not_eq_true'] at h3
    simp [h1, h2, h3]
  · rw [Bool.and_eq_true, Bool.not_eq_true'] at h3
    simp [h1, h2, h3]

/-- C5 counterexample: `df3` has exactly 3 usable bars and its last two
smoothed bars form the reversal pattern, yet the symbol is skipped,
because `analyze_stock` also requires at least 4 raw rows. -/
theorem three_bar_series_skipped :
    (usable (heikin_ashiNA df3)).length = 3 ∧
    isGreenNA (yRowOf (usable (heikin_ashiNA df3))) = true ∧
    isGreenNA (dRowOf (usable (heikin_ashiNA df3))) = false ∧
    analyze_stock "A2A.MI" df3 = none := by
  refine ⟨?_, ?_, ?_, ?_⟩
  · norm_num [df3, liftBar, usable, heikin_ashiNA, vGo, mkVHABar, haCloseNA,
      oadd, odiv, omax2, omin2, List.filter]
  · norm_num [yRowOf, df3, liftBar, usable, heikin_ashiNA, vGo, mkVHABar,
      haCloseNA, oadd, odiv, omax2, omin2, isGreenNA, List.filter, List.drop,
      List.getD]
  · norm_num [dRowOf, df3, liftBar, usable, heikin_ashiNA, vGo, mkVHABar,
      haCloseNA, oadd, odiv, omax2, omin2, isGreenNA, List.filter, List.drop,
      List.getD]
  · norm_num [analyze_stock, df3, liftBar]

/-- C6 (amended): every match carries the symbol and its dropna'd smoothed
series, no percentage-change field is computed, and the final collection
keeps symbol-iteration order: the output is exactly the in-order
filterMap of the per-symbol analysis, with no sorting step. -/
theorem screen_emits_in_iteration_order
    (inputs : List (String × Except String (List VBar))) :
    screen inputs = inputs.filterMap analyzeSym :=
  screen_eq_filterMap inputs

/-- C6 counterexample: a two-symbol run in which both symbols match and
the emitted order has the percentage change (computed from the smoothed
closes as the spec prescribes) in ascending, not descending, order. -/
theorem emission_not_sorted_by_pct :
    (screen [("AAA", Except.ok dfP), ("BBB", Except.ok dfB6)]).map
        (fun r => r.symbol) = ["AAA", "BBB"] ∧
    specPctChange ((screen [("AAA", Except.ok dfP),
        ("BBB", Except.ok dfB6)]).getD 0 default).ha <
      specPctChange ((screen [("AAA", Except.ok dfP),
        ("BBB", Except.ok dfB6)]).getD 1 default).ha := by
  refine ⟨?_, ?_⟩
  · norm_num [screen, screenAux, analyzeSym, analyze_stock, yRowOf, dRowOf,
      dfP, dfB6, liftBar, usable, heikin_ashiNA, vGo, mkVHABar, haCloseNA,
      oadd, odiv, omax2, omin2, isGreenNA, List.filter, List.drop, List.getD]
  · norm_num [screen, screenAux, analyzeSym, analyze_stock, yRowOf, dRowOf,
      specPctChange, dfP, dfB6, liftBar, usable, heikin_ashiNA, vGo, mkVHABar,
      haCloseNA, oadd, odiv, omax2, omin2, isGreenNA, List.filter, List.drop,
      List.getD]

/-- C8: an extraction error for one symbol never aborts the scan of the
remaining symbols: the scan of any list with an erroring symbol in the
middle is the concatenation of the scans of the symbols before and
after it. -/
theorem screen_error_isolated
    (xs ys : List (String × Except String (List VBar))) (s e : String) :
    screen (xs ++ (s, Except.error e) :: ys) = screen xs ++ screen ys := by
  rw [screen_eq_filterMap, screen_eq_filterMap, screen_eq_filterMap,
    List.filterMap_append, List.filterMap_cons]
  rfl

/-- C10: the emitted results preserve the order in which the symbols
appear in the input list: the sequence of emitted symbols is a sublist of
the input symbol sequence. -/
theorem screen_preserves_input_order
    (inputs : List (String × Except String (List VBar))) :
    ((screen inputs).map (fun r => r.symbol)).Sublist
      (inputs.map Prod.fst) := by
  rw [screen_eq_filterMap]
  induction inputs with
  | nil => simp
  | cons p rest ih =>
    rw [List.filterMap_cons]
    cases h : analyzeSym p with
    | none =>
      simp only [List.map_cons]
      exact List.Sublist.cons _ ih
    | some r =>
      simp only [List.map_cons]
      rw [analyzeSym_symbol p r h]
      exact List.Sublist.cons₂ _ ih

end HAScreener

namespace HAScreener

/-- C7 counterexample: the transform reports no error at all. In `dfInv`
bar 1 violates the OHLC ordering invariant (High 5 below Low 12), yet the
transform processes all 4 bars and the dropna filter removes nothing; and
in `dfNaN` only bar 2 has a missing field, so dropping the offending bar
would leave 5 valid bars, yet only 2 bars survive the filter and the
symbol is skipped — the series is effectively aborted, not filtered
bar-wise. -/
theorem transform_no_validation_cex :
    (heikin_ashiNA dfInv).length = 4 ∧
    usable (heikin_ashiNA dfInv) = heikin_ashiNA dfInv ∧
    dfNaN.length = 6 ∧
    (usable (heikin_ashiNA dfNaN)).length = 2 ∧
    analyze_stock "A2A.MI" dfNaN = none := by
  refine ⟨rfl, rfl, rfl, rfl, rfl⟩

end HAScreener
